import Mathlib

/-
Verification of the packing core of ascheepe/fit (src/fit.c).

The C program is embedded shallowly:

* `off_t` file sizes and disk capacities become `Int` (the quantities that
  occur are file sizes read from `stat`, hence non-negative, and a positive
  configured capacity; the 64-bit `off_t` arithmetic of the packer stays
  far below the 2^63 range on the inputs the claims quantify over, so it
  carries no modular reduction — but compare_file_info returns its 64-bit
  difference through a 32-bit `int`, and that truncation is modelled
  explicitly by `wrap32`);
* the dynamic `struct array` of pointers becomes `List`, with
  `array_add` = append at the right end;
* `errx`/`err` fatal exits become `Except` errors;
* the file system, needed only by `collect_files`, becomes an inductive
  tree of directory entries.
-/

/-- The struct file_info of fit.c:262-266: a file's size and name. -/
structure file_info where
  name : String
  size : Int
deriving DecidableEq, Repr

/-- The struct disk of fit.c:291-296: an array of files, the free space
and an id. -/
structure disk where
  files : List file_info
  free  : Int
  id    : Nat
deriving DecidableEq, Repr

/-- Truncation of an integer to a 32-bit two's complement `int`, i.e.
reduction modulo 2^32 into [-2^31, 2^31).  The conversion of an
out-of-range value to `int` is implementation-defined in ISO C; this is
the universal behaviour of the supported targets. -/
def wrap32 (n : Int) : Int := (n + 2147483648) % 4294967296 - 2147483648

/-- compare_file_info (fit.c:459-466): the comparator returns the
difference fb->size - fa->size, computed in 64-bit `off_t` but returned
through the 32-bit `int` return type, hence truncated by `wrap32`.  For
size differences of at least 2^31 the returned sign can therefore be
wrong. -/
def compare_file_info (a b : file_info) : Int := wrap32 (b.size - a.size)

/-- The order a comparison sort realises from the comparator: qsort
places element a no later than element b when the comparator, asked in
that direction, returns at most 0. -/
def file_le (a b : file_info) : Prop := compare_file_info a b ≤ 0

instance : DecidableRel file_le := fun a b =>
  Int.decLe (compare_file_info a b) 0

/-- Order transcribed from spec §4.3 step 1, "Sort the file collection
by size descending": file a sorts no later than file b exactly when
b.size ≤ a.size.  It agrees with `file_le` whenever the comparator's
truncation is exact, i.e. for sizes within [0, 2^31). -/
def fit_le (a b : file_info) : Prop := b.size ≤ a.size

instance : DecidableRel fit_le := fun a b => Int.decLe b.size a.size

instance : IsTotal file_info fit_le :=
  ⟨fun a b => Int.le_total b.size a.size⟩

instance : IsTrans file_info fit_le :=
  ⟨fun _ _ _ hab hbc => le_trans hbc hab⟩

/-- The qsort call of fit.c:479 on the files array, modelled as an
insertion sort driven by the real comparator's order `file_le`.  qsort
leaves the order of tying elements unspecified, and when the truncating
comparator is inconsistent the C standard leaves the output unspecified
altogether; insertion sort over `file_le` is one refinement of that
latitude (the counterexamples below use only inputs on which the
comparator answers consistently in both query directions, where every
comparison sort must produce the same order). -/
def sort_files (files : List file_info) : List file_info :=
  List.insertionSort file_le files

/-- disk_new (fit.c:298-308).  The C function draws the id from a static
counter that starts at 0 in a fresh process; the single `fit_files` run
performed by main therefore numbers its disks 1, 2, ....  The counter
value is passed explicitly here. -/
def disk_new (size : Int) (id : Nat) : disk :=
  { files := [], free := size, id := id }

/-- The inner loop of fit_files (fit.c:486-497): scan the disks in
order; on the first disk with disk->free - file->size >= 0 append the
file to the disk's array and decrement its free space.  `none` models
added == false. -/
def add_to_first_fit (f : file_info) : List disk → Option (List disk)
  | [] => none
  | d :: rest =>
    if 0 ≤ d.free - f.size then
      some ({ d with files := d.files ++ [f], free := d.free - f.size } :: rest)
    else
      (add_to_first_fit f rest).map (fun ds => d :: ds)

/-- One iteration of the outer loop of fit_files (fit.c:480-507): try
the existing disks; if the file was not added, create a new disk of the
configured size, add the file to it and append the disk to the disks
array. -/
def fit_step (capacity : Int) (disks : List disk) (f : file_info) : List disk :=
  match add_to_first_fit f disks with
  | some disks2 => disks2
  | none =>
    let d := disk_new capacity (disks.length + 1)
    disks ++ [{ d with files := d.files ++ [f], free := d.free - f.size }]

/-- fit_files (fit.c:475-508): sort the files by size descending, then
place each file by first fit, starting from the empty disks array built
by main (fit.c:651-652). -/
def fit_files (capacity : Int) (files : List file_info) : List disk :=
  (sort_files files).foldl (fit_step capacity) []

/-
Spec-side transcription of §4.3 of spec.md, used only to compare the
code against the specification text (claim C1).
-/

/-- Transcription of the scan of spec §4.3 step 3: "scan existing disks
in creation order; assign the file to the first disk whose
remainingCapacity ≥ file.size (decrement that disk's remainingCapacity
by file.size, append the file to that disk's file list, stop
scanning)". -/
def spec_place (f : file_info) : List disk → Option (List disk)
  | [] => none
  | d :: rest =>
    if f.size ≤ d.free then
      some ({ d with free := d.free - f.size, files := d.files ++ [f] } :: rest)
    else
      (spec_place f rest).map (fun ds => d :: ds)

/-- Transcription of spec §4.3 step 3, second sentence: "If no existing
disk fits, create a new disk with full capacity, assign the file to it,
and append the new disk to the end of the disk collection." -/
def spec_step (capacity : Int) (disks : List disk) (f : file_info) : List disk :=
  match spec_place f disks with
  | some disks2 => disks2
  | none =>
    disks ++ [{ files := [f], free := capacity - f.size, id := disks.length + 1 }]

/-- Transcription of spec §4.3 step 1, "Sort the file collection by
size descending": a true descending sort by the exact order `fit_le`. -/
def spec_sort (files : List file_info) : List file_info :=
  List.insertionSort fit_le files

/-- Transcription of spec §4.3: "Sort the file collection by size
descending", then step 3 for each file in sorted order, starting from an
empty disk collection. -/
def pack_spec (capacity : Int) (files : List file_info) : List disk :=
  (spec_sort files).foldl (spec_step capacity) []


/-
Embedding of the size string parser (fit.c:103-133) and the capacity
check of main (fit.c:631-635).
-/

/-- The unit defines of fit.c:42-45. -/
def KB : Int := 1000

/-- MB of fit.c:43. -/
def MB : Int := KB * KB

/-- GB of fit.c:44. -/
def GB : Int := MB * KB

/-- TB of fit.c:45. -/
def TB : Int := GB * KB

/-- The isspace test of the C locale used by strtol: space, tab,
newline, vertical tab, form feed, carriage return. -/
def c_isspace (c : Char) : Bool :=
  decide (c = ' ' ∨ c = '\t' ∨ c = '\n' ∨ c = Char.ofNat 11 ∨
    c = Char.ofNat 12 ∨ c = '\r')

/-- tolower of the C locale, applied at fit.c:121 to the unit char. -/
def c_tolower (c : Char) : Char :=
  if 'A' ≤ c ∧ c ≤ 'Z' then Char.ofNat (c.toNat + 32) else c

/-- Numeric value of a digit character. -/
def digit_val (c : Char) : Int := (c.toNat : Int) - 48

/-- strtol(string, &unit, 10) as called at fit.c:106: skip leading
whitespace, take an optional single sign, then a maximal run of decimal
digits.  The second component models the endptr: on a string with no
digits, value 0 and endptr = the original string.  The LONG_MIN/LONG_MAX
clamping of out-of-range values is not modelled; the claims stay far
below that range. -/
def strtol10 (s : List Char) : Int × List Char :=
  let s1 := s.dropWhile c_isspace
  let hasSign : Bool :=
    decide (s1.head? = some '-') || decide (s1.head? = some '+')
  let neg : Bool := decide (s1.head? = some '-')
  let s2 := if hasSign then s1.tail else s1
  let digs := s2.takeWhile Char.isDigit
  if digs.isEmpty then (0, s)
  else
    (if neg then -(digs.foldl (fun a c => a * 10 + digit_val c) 0)
     else digs.foldl (fun a c => a * 10 + digit_val c) 0,
     s2.drop digs.length)

/-- string_to_number (fit.c:103-133): parse with strtol; an empty parse
is "invalid input."; no remaining char returns the number; exactly one
remaining char is a case-insensitive unit b, k, m, g or t scaling the
number; anything else is "unknown unit". -/
def string_to_number (s : String) : Except String Int :=
  let r := strtol10 s.data
  if r.2 = s.data then .error "invalid input."
  else
    match r.2 with
    | [] => .ok r.1
    | [u] =>
      match c_tolower u with
      | 't' => .ok (r.1 * TB)
      | 'g' => .ok (r.1 * GB)
      | 'm' => .ok (r.1 * MB)
      | 'k' => .ok (r.1 * KB)
      | 'b' => .ok r.1
      | _ => .error ("unknown unit: \x27" ++ String.mk r.2 ++ "\x27")
    | _ => .error ("unknown unit: \x27" ++ String.mk r.2 ++ "\x27")

/-- The -s handling of main: string_to_number on the option argument
(fit.c:616) followed by the positivity check of fit.c:631-635, which
rejects a non-positive result as "disk size is too small.". -/
def parse_capacity (s : String) : Except String Int :=
  match string_to_number s with
  | .error e => .error e
  | .ok n => if n ≤ 0 then .error "disk size is too small." else .ok n

instance : DecidableEq (Except String Int) := fun x y =>
  match x, y with
  | .ok a, .ok b =>
    if h : a = b then isTrue (by rw [h]) else isFalse (by simp [h])
  | .error a, .error b =>
    if h : a = b then isTrue (by rw [h]) else isFalse (by simp [h])
  | .ok _, .error _ => isFalse (by simp)
  | .error _, .ok _ => isFalse (by simp)

/-- Character of a decimal digit. -/
def digit_char (d : Nat) : Char := Char.ofNat (48 + d)

/-- Decimal rendering of a natural number as the character list strtol
reads back; for m = 0 this is empty, so it is used with m ≠ 0. -/
def nat_chars (m : Nat) : List Char := (Nat.digits 10 m).reverse.map digit_char

/-- The ten unit suffixes accepted at fit.c:121-128 with their
multipliers. -/
def unit_table : List (Char × Int) :=
  [('b', 1), ('B', 1), ('k', KB), ('K', KB), ('m', MB), ('M', MB),
   ('g', GB), ('G', GB), ('t', TB), ('T', TB)]


/-
Embedding of the path normalizer cleanpath (fit.c:157-192).
-/

/-- The copying loop of cleanpath (fit.c:163-177): copy each character;
after copying a slash, skip any further consecutive slashes. -/
def cleanpath_chars : List Char → List Char
  | [] => []
  | c :: rest =>
    if c = '/' then '/' :: cleanpath_chars (rest.dropWhile (fun x => x = '/'))
    else c :: cleanpath_chars rest
termination_by l => l.length
decreasing_by
  · simp only [List.length_cons]
    exact Nat.lt_succ_of_le (List.dropWhile_sublist _).length_le
  · simp only [List.length_cons]
    exact Nat.lt_succ_self _

/-- cleanpath (fit.c:157-192): run the copying loop, then drop a final
slash when more than one character was written and the last one is a
slash (fit.c:179-186). -/
def cleanpath (path : String) : String :=
  let buf := cleanpath_chars path.data
  if 1 < buf.length ∧ buf.getLast? = some '/' then String.mk buf.dropLast
  else String.mk buf

/-- Transcription of spec §4.1: "collapses any run of consecutive
separator characters into a single separator", written as adjacent
separator deduplication. -/
def squeeze_spec : List Char → List Char
  | [] => []
  | [c] => [c]
  | c1 :: c2 :: rest =>
    if c1 = '/' ∧ c2 = '/' then squeeze_spec (c1 :: rest)
    else c1 :: squeeze_spec (c2 :: rest)

/-- Transcription of spec §4.1: collapse runs, then strip one trailing
separator "unless the result would become the empty string or the root
separator alone". -/
def normalize_spec (path : String) : String :=
  let collapsed := squeeze_spec path.data
  if collapsed.getLast? = some '/' ∧ String.mk collapsed.dropLast ≠ "" ∧
      String.mk collapsed.dropLast ≠ "/" then
    String.mk collapsed.dropLast
  else String.mk collapsed


/-
Embedding of collect_files (fit.c:514-573) and the pipeline of main
(fit.c:637-661).  The directory tree read through opendir/readdir/stat
becomes an inductive tree of entries; the self and parent pseudo-entries
skipped at fit.c:531-535 are not part of the tree, and readdir's
enumeration order is the list order.  opendir/stat failures (fit.c:519-521
and 540-543) are fatal environment errors outside the tree model.
-/

/-- A directory entry as classified by collect_files: a regular file
with its stat size, a subdirectory with its entries, or any other kind
(fit.c:544, 552, 566-569). -/
inductive fs_entry where
  | file (name : String) (size : Int)
  | dir (name : String) (entries : List fs_entry)
  | other (name : String)
deriving Repr

/-- The fatal errx exits of collect_files and main.  fileTooLarge
carries the offending path and size as errx at fit.c:560 prints them
(the size rendered human-readably by number_to_string, whose
floating-point formatting is not modelled). -/
inductive fit_error where
  | fileTooLarge (path : String) (size : Int)
  | notRegular (path : String)
  | noFiles
  | tooManyDisks (count : Nat)
deriving DecidableEq, Repr

/-- collect_files (fit.c:514-573): walk the entries of path in order;
a regular file larger than the capacity is fatal (fit.c:556-561),
otherwise it is appended to the files array (fit.c:563-564); a directory
is descended only when recursive is set (fit.c:544-551); any other entry
kind is fatal (fit.c:566-569). -/
def collect_files (capacity : Int) (recursive : Bool) :
    String → List fs_entry → List file_info → Except fit_error (List file_info)
  | _, [], files => .ok files
  | path, e :: rest, files =>
    match e with
    | .file name size =>
      if size > capacity then
        .error (.fileTooLarge (path ++ "/" ++ name) size)
      else
        collect_files capacity recursive path rest
          (files ++ [⟨path ++ "/" ++ name, size⟩])
    | .dir name entries =>
      if recursive then
        match collect_files capacity recursive (path ++ "/" ++ name) entries files with
        | .error err => .error err
        | .ok files2 => collect_files capacity recursive path rest files2
      else
        collect_files capacity recursive path rest files
    | .other name => .error (.notRegular (path ++ "/" ++ name))

/-- The argument loop of main (fit.c:637-644): each root path is cleaned
by cleanpath and collected into the shared files array. -/
def collect_roots (capacity : Int) (recursive : Bool) :
    List (String × List fs_entry) → List file_info →
      Except fit_error (List file_info)
  | [], files => .ok files
  | (path, entries) :: rest, files =>
    match collect_files capacity recursive (cleanpath path) entries files with
    | .error err => .error err
    | .ok files2 => collect_roots capacity recursive rest files2

/-- The disk-count guard of main (fit.c:654-661), run after fit_files
and before any printing or linking. -/
def main_check_disks (disks : List disk) : Except fit_error (List disk) :=
  if disks.length > 9999 then .error (.tooManyDisks disks.length)
  else .ok disks

/-- The pipeline of main from the collection loop to the disk-count
guard (fit.c:637-661): collect all roots, fail when no file was found
(fit.c:646-649), pack, fail when the packing needs more than 9999
disks. -/
def main_model (capacity : Int) (recursive : Bool)
    (roots : List (String × List fs_entry)) : Except fit_error (List disk) :=
  match collect_roots capacity recursive roots [] with
  | .error err => .error err
  | .ok files =>
    if files.length = 0 then .error .noFiles
    else main_check_disks (fit_files capacity files)

/-- The id-format guard at the top of disk_link (fit.c:422-425).  The
directory creation and hardlinking the function then performs are
filesystem side effects outside this embedding. -/
def disk_link_check (d : disk) : Except String Unit :=
  if d.id > 9999 then .error "disk_link: disk_id too big for format."
  else .ok ()

/-- Disks produced by packing n files of size 1 at capacity 1: one
full disk per file, ids 1..n.  Used to exhibit a run with more than
9999 disks. -/
def unit_disks (n : Nat) : List disk :=
  (List.range' 1 n).map (fun i => { files := [⟨"big", 1⟩], free := 0, id := i })

lemma add_to_first_fit_eq_spec_place (f : file_info) :
    ∀ ds : List disk, add_to_first_fit f ds = spec_place f ds := by
  intro ds
  induction ds with
  | nil => rfl
  | cons d rest ih =>
    simp only [add_to_first_fit, spec_place, Int.sub_nonneg, ih]

lemma fit_step_eq_spec_step (capacity : Int) :
    fit_step capacity = spec_step capacity := by
  funext disks f
  simp only [fit_step, spec_step, add_to_first_fit_eq_spec_place, disk_new,
    List.nil_append]

lemma wrap32_eq_self {n : Int} (h1 : -2147483648 ≤ n)
    (h2 : n < 2147483648) : wrap32 n = n := by
  unfold wrap32
  omega

lemma file_le_iff_fit_le {a b : file_info}
    (ha : 0 ≤ a.size ∧ a.size < 2147483648)
    (hb : 0 ≤ b.size ∧ b.size < 2147483648) :
    file_le a b ↔ fit_le a b := by
  unfold file_le compare_file_info fit_le
  rw [wrap32_eq_self (by omega) (by omega)]
  omega

lemma orderedInsert_congr {α : Type} (r s : α → α → Prop)
    [DecidableRel r] [DecidableRel s] (a : α) :
    ∀ l : List α, (∀ b ∈ l, (r a b ↔ s a b)) →
      List.orderedInsert r a l = List.orderedInsert s a l := by
  intro l
  induction l with
  | nil => intro _; rfl
  | cons b t ih =>
    intro h
    simp only [List.orderedInsert]
    by_cases hr : r a b
    · rw [if_pos hr, if_pos ((h b (List.mem_cons_self _ _)).mp hr)]
    · rw [if_neg hr, if_neg (fun hs => hr ((h b (List.mem_cons_self _ _)).mpr hs)),
        ih (fun x hx => h x (List.mem_cons_of_mem _ hx))]

lemma insertionSort_congr {α : Type} (r s : α → α → Prop)
    [DecidableRel r] [DecidableRel s] :
    ∀ l : List α, (∀ a ∈ l, ∀ b ∈ l, (r a b ↔ s a b)) →
      List.insertionSort r l = List.insertionSort s l := by
  intro l
  induction l with
  | nil => intro _; rfl
  | cons x t ih =>
    intro h
    simp only [List.insertionSort]
    rw [ih (fun a ha b hb =>
      h a (List.mem_cons_of_mem _ ha) b (List.mem_cons_of_mem _ hb))]
    apply orderedInsert_congr
    intro b hb
    have hbt : b ∈ t := (List.perm_insertionSort s t).mem_iff.mp hb
    exact h x (List.mem_cons_self _ _) b (List.mem_cons_of_mem _ hbt)

/-- On collections whose sizes stay below 2^31 the truncating comparator
is exact, so the qsort model coincides with the spec's descending
sort. -/
lemma sort_files_eq_spec_sort (files : List file_info)
    (hb : ∀ f ∈ files, 0 ≤ f.size ∧ f.size < 2147483648) :
    sort_files files = spec_sort files := by
  unfold sort_files spec_sort
  apply insertionSort_congr
  intro a ha b hbm
  exact file_le_iff_fit_le (hb a ha) (hb b hbm)

/-- C1, counterexample to the original claim: a 0-byte file and a
3 GiB file (size 3221225472 = 3 * 2^30), each at most the capacity
3221225472.  The comparator's 32-bit return truncates the difference
3221225472 to -2^30 and the difference -3221225472 to +2^30, so in both
query directions it orders the 0-byte file first — every comparison
sort, qsort included, therefore processes the files in increasing size
order, and the packer's result differs from the spec's first-fit
descending procedure. -/
theorem fit_files_truncated_compare_counterexample :
    (∀ f ∈ [(⟨"x", 0⟩ : file_info), ⟨"y", 3221225472⟩],
      f.size ≤ (3221225472 : Int)) ∧
      fit_files 3221225472 [⟨"x", 0⟩, ⟨"y", 3221225472⟩] ≠
        pack_spec 3221225472 [⟨"x", 0⟩, ⟨"y", 3221225472⟩] := by
  constructor
  · decide
  · decide

/-- C1, amended: on every file collection whose files all fit the
capacity and whose sizes are below 2^31 bytes — so that the 32-bit
truncation in compare_file_info is exact — the packer is exactly the
first-fit-descending procedure described by the spec: files in
descending size order, each assigned to the first disk (in creation
order) with enough remaining capacity, which is decremented while the
file is appended to that disk's list; when no disk fits, a new
full-capacity disk receives the file and is appended to the disk
collection. -/
theorem fit_files_eq_pack_spec (capacity : Int) (files : List file_info)
    (hf : ∀ f ∈ files, f.size ≤ capacity)
    (hb : ∀ f ∈ files, 0 ≤ f.size ∧ f.size < 2147483648) :
    fit_files capacity files = pack_spec capacity files := by
  rw [fit_files, pack_spec, fit_step_eq_spec_step,
    sort_files_eq_spec_sort files hb]

theorem fit_files_eq_pack_spec_witness :
    fit_files 10 [⟨"a", 4⟩, ⟨"b", 4⟩, ⟨"c", 4⟩, ⟨"d", 2⟩] =
      pack_spec 10 [⟨"a", 4⟩, ⟨"b", 4⟩, ⟨"c", 4⟩, ⟨"d", 2⟩] :=
  fit_files_eq_pack_spec 10 [⟨"a", 4⟩, ⟨"b", 4⟩, ⟨"c", 4⟩, ⟨"d", 2⟩]
    (by decide) (by decide)

/-
Step lemmas about the inner loop (fit.c:486-497).
-/

lemma add_to_first_fit_mem (f : file_info) :
    ∀ (ds ds2 : List disk), add_to_first_fit f ds = some ds2 →
      ∀ d2 ∈ ds2, d2 ∈ ds ∨
        ∃ d ∈ ds, 0 ≤ d.free - f.size ∧
          d2 = { d with files := d.files ++ [f], free := d.free - f.size } := by
  intro ds
  induction ds with
  | nil => intro ds2 h; simp [add_to_first_fit] at h
  | cons d rest ih =>
    intro ds2 h d2 hd2
    rw [add_to_first_fit] at h
    by_cases hc : 0 ≤ d.free - f.size
    · rw [if_pos hc] at h
      obtain rfl := Option.some.inj h
      rcases List.mem_cons.mp hd2 with rfl | hmem
      · exact Or.inr ⟨d, List.mem_cons_self _ _, hc, rfl⟩
      · exact Or.inl (List.mem_cons_of_mem _ hmem)
    · rw [if_neg hc, Option.map_eq_some'] at h
      obtain ⟨ds2h, h2, rfl⟩ := h
      rcases List.mem_cons.mp hd2 with rfl | hmem
      · exact Or.inl (List.mem_cons_self _ _)
      · rcases ih ds2h h2 d2 hmem with hin | ⟨d0, hd0, hge, rfl⟩
        · exact Or.inl (List.mem_cons_of_mem _ hin)
        · exact Or.inr ⟨d0, List.mem_cons_of_mem _ hd0, hge, rfl⟩

lemma add_to_first_fit_flatten (f : file_info) :
    ∀ (ds ds2 : List disk), add_to_first_fit f ds = some ds2 →
      ((ds2.map disk.files).flatten).Perm
        ((ds.map disk.files).flatten ++ [f]) := by
  intro ds
  induction ds with
  | nil => intro ds2 h; simp [add_to_first_fit] at h
  | cons d rest ih =>
    intro ds2 h
    rw [add_to_first_fit] at h
    by_cases hc : 0 ≤ d.free - f.size
    · rw [if_pos hc] at h
      obtain rfl := Option.some.inj h
      simp only [List.map_cons, List.flatten_cons]
      rw [List.append_assoc, List.append_assoc]
      exact List.Perm.append_left d.files List.perm_append_comm
    · rw [if_neg hc, Option.map_eq_some'] at h
      obtain ⟨ds2h, h2, rfl⟩ := h
      simp only [List.map_cons, List.flatten_cons]
      rw [List.append_assoc]
      exact List.Perm.append_left d.files (ih ds2h h2)

lemma add_to_first_fit_ids (f : file_info) :
    ∀ (ds ds2 : List disk), add_to_first_fit f ds = some ds2 →
      ds2.map disk.id = ds.map disk.id := by
  intro ds
  induction ds with
  | nil => intro ds2 h; simp [add_to_first_fit] at h
  | cons d rest ih =>
    intro ds2 h
    rw [add_to_first_fit] at h
    by_cases hc : 0 ≤ d.free - f.size
    · rw [if_pos hc] at h
      obtain rfl := Option.some.inj h
      simp
    · rw [if_neg hc, Option.map_eq_some'] at h
      obtain ⟨ds2h, h2, rfl⟩ := h
      simp [ih ds2h h2]

/-
Step lemmas about one iteration of the outer loop (fit.c:480-507).
-/

lemma fit_step_mem (capacity : Int) (ds : List disk) (f : file_info) :
    ∀ d2 ∈ fit_step capacity ds f, d2 ∈ ds ∨
      (∃ d ∈ ds, 0 ≤ d.free - f.size ∧
        d2 = { d with files := d.files ++ [f], free := d.free - f.size }) ∨
      d2 = { files := [f], free := capacity - f.size, id := ds.length + 1 } := by
  intro d2 hd2
  cases h : add_to_first_fit f ds with
  | some ds2 =>
    simp only [fit_step, h] at hd2
    rcases add_to_first_fit_mem f ds ds2 h d2 hd2 with hin | hupd
    · exact Or.inl hin
    · exact Or.inr (Or.inl hupd)
  | none =>
    simp only [fit_step, h, disk_new, List.nil_append] at hd2
    rcases List.mem_append.mp hd2 with hin | hnew
    · exact Or.inl hin
    · exact Or.inr (Or.inr (List.mem_singleton.mp hnew))

lemma fit_step_flatten (capacity : Int) (ds : List disk) (f : file_info) :
    (((fit_step capacity ds f).map disk.files).flatten).Perm
      ((ds.map disk.files).flatten ++ [f]) := by
  cases h : add_to_first_fit f ds with
  | some ds2 =>
    simp only [fit_step, h]
    exact add_to_first_fit_flatten f ds ds2 h
  | none =>
    simp only [fit_step, h, disk_new, List.nil_append]
    rw [List.map_append, List.flatten_append]
    simp

lemma fit_step_ids (capacity : Int) (ds : List disk) (f : file_info) :
    (fit_step capacity ds f).map disk.id = ds.map disk.id ∨
      (fit_step capacity ds f).map disk.id =
        ds.map disk.id ++ [ds.length + 1] := by
  cases h : add_to_first_fit f ds with
  | some ds2 =>
    simp only [fit_step, h]
    exact Or.inl (add_to_first_fit_ids f ds ds2 h)
  | none =>
    simp only [fit_step, h, disk_new, List.nil_append]
    simp

/-- Invariant carried by the outer loop of fit_files over the disks
array: the placed files are exactly the ones spread over the disks, each
disk's free field accounts for the sizes placed on it and is
non-negative, and the ids read 1, 2, ..., number of disks. -/
lemma fit_loop_invariant (capacity : Int) :
    ∀ (fs : List file_info) (ds : List disk) (placed : List file_info),
      (∀ g ∈ fs, g.size ≤ capacity) →
      ((ds.map disk.files).flatten).Perm placed →
      (∀ d ∈ ds, d.free = capacity - (d.files.map file_info.size).sum) →
      (∀ d ∈ ds, 0 ≤ d.free) →
      ds.map disk.id = List.range' 1 ds.length →
      (((fs.foldl (fit_step capacity) ds).map disk.files).flatten).Perm
          (placed ++ fs) ∧
        (∀ d ∈ fs.foldl (fit_step capacity) ds,
          d.free = capacity - (d.files.map file_info.size).sum) ∧
        (∀ d ∈ fs.foldl (fit_step capacity) ds, 0 ≤ d.free) ∧
        (fs.foldl (fit_step capacity) ds).map disk.id =
          List.range' 1 (fs.foldl (fit_step capacity) ds).length := by
  intro fs
  induction fs with
  | nil =>
    intro ds placed hfs hperm hfree hnn hids
    simpa using ⟨hperm, hfree, hnn, hids⟩
  | cons f fs ih =>
    intro ds placed hfs hperm hfree hnn hids
    rw [List.foldl_cons]
    have hperm2 :
        (((fit_step capacity ds f).map disk.files).flatten).Perm
          (placed ++ [f]) :=
      (fit_step_flatten capacity ds f).trans (hperm.append_right [f])
    have hfree2 : ∀ d2 ∈ fit_step capacity ds f,
        d2.free = capacity - (d2.files.map file_info.size).sum := by
      intro d2 hd2
      rcases fit_step_mem capacity ds f d2 hd2 with hin | ⟨d, hd, hge, rfl⟩ | rfl
      · exact hfree d2 hin
      · simp only [List.map_append, List.sum_append, List.map_cons,
          List.sum_cons, List.map_nil, List.sum_nil]
        rw [hfree d hd]
        ring
      · simp
    have hnn2 : ∀ d2 ∈ fit_step capacity ds f, 0 ≤ d2.free := by
      intro d2 hd2
      rcases fit_step_mem capacity ds f d2 hd2 with hin | ⟨d, hd, hge, rfl⟩ | rfl
      · exact hnn d2 hin
      · exact hge
      · have := hfs f (List.mem_cons_self _ _)
        simp only []
        omega
    have hids2 : (fit_step capacity ds f).map disk.id =
        List.range' 1 (fit_step capacity ds f).length := by
      rcases fit_step_ids capacity ds f with h | h
      · have hl : (fit_step capacity ds f).length = ds.length := by
          have := congrArg List.length h
          simpa using this
        rw [h, hl, hids]
      · have hl : (fit_step capacity ds f).length = ds.length + 1 := by
          have := congrArg List.length h
          simpa using this
        rw [h, hl, hids, List.range'_concat]
        have : 1 + 1 * ds.length = ds.length + 1 := by omega
        rw [this]
    have H := ih (fit_step capacity ds f) (placed ++ [f])
      (fun g hg => hfs g (List.mem_cons_of_mem _ hg)) hperm2 hfree2 hnn2 hids2
    refine ⟨?_, H.2.1, H.2.2.1, H.2.2.2⟩
    have h1 := H.1
    rwa [List.append_assoc, List.singleton_append] at h1

/-- C2: on every non-empty collection whose files all fit the positive
capacity, fit_files (a total function, hence terminating) produces at
least one disk; the files spread over the disks are a permutation of the
input files, so every input file lands on exactly one disk exactly once;
no disk's assigned total exceeds the capacity; and the disks carry ids
1, 2, ..., d in creation order. -/
theorem fit_files_guarantees (capacity : Int) (files : List file_info)
    (hcap : 0 < capacity) (hne : files ≠ [])
    (hf : ∀ f ∈ files, f.size ≤ capacity) :
    1 ≤ (fit_files capacity files).length ∧
      (((fit_files capacity files).map disk.files).flatten).Perm files ∧
      (∀ d ∈ fit_files capacity files,
        (d.files.map file_info.size).sum ≤ capacity) ∧
      (fit_files capacity files).map disk.id =
        List.range' 1 (fit_files capacity files).length := by
  have hsortmem : ∀ g ∈ sort_files files, g.size ≤ capacity := by
    intro g hg
    exact hf g ((List.perm_insertionSort file_le files).mem_iff.mp hg)
  have H := fit_loop_invariant capacity (sort_files files) [] []
    hsortmem (by simp) (by simp) (by simp) (by simp)
  simp only [fit_files]
  have hperm :
      ((((sort_files files).foldl (fit_step capacity) []).map
        disk.files).flatten).Perm files := by
    have h1 := H.1
    rw [List.nil_append] at h1
    exact h1.trans (List.perm_insertionSort file_le files)
  refine ⟨?_, hperm, ?_, H.2.2.2⟩
  · by_contra hlt
    push_neg at hlt
    have h0 : (sort_files files).foldl (fit_step capacity) [] = [] :=
      List.length_eq_zero.mp (by omega)
    rw [h0] at hperm
    simp only [List.map_nil, List.flatten_nil] at hperm
    exact hne ((List.perm_nil.mp hperm.symm))
  · intro d hd
    have h2 := H.2.1 d hd
    have h3 := H.2.2.1 d hd
    omega

theorem fit_files_guarantees_witness :
    1 ≤ (fit_files 10 [⟨"a", 4⟩, ⟨"b", 4⟩, ⟨"c", 4⟩, ⟨"d", 2⟩]).length ∧
      (((fit_files 10 [⟨"a", 4⟩, ⟨"b", 4⟩, ⟨"c", 4⟩, ⟨"d", 2⟩]).map
        disk.files).flatten).Perm [⟨"a", 4⟩, ⟨"b", 4⟩, ⟨"c", 4⟩, ⟨"d", 2⟩] ∧
      (∀ d ∈ fit_files 10 [⟨"a", 4⟩, ⟨"b", 4⟩, ⟨"c", 4⟩, ⟨"d", 2⟩],
        (d.files.map file_info.size).sum ≤ 10) ∧
      (fit_files 10 [⟨"a", 4⟩, ⟨"b", 4⟩, ⟨"c", 4⟩, ⟨"d", 2⟩]).map disk.id =
        List.range' 1
          (fit_files 10 [⟨"a", 4⟩, ⟨"b", 4⟩, ⟨"c", 4⟩, ⟨"d", 2⟩]).length :=
  fit_files_guarantees 10 [⟨"a", 4⟩, ⟨"b", 4⟩, ⟨"c", 4⟩, ⟨"d", 2⟩]
    (by decide) (by decide) (by decide)

/-- C3: with every file at most the capacity, each disk produced by
fit_files has free = capacity minus the sum of the sizes of its files
and free is non-negative; moreover the same holds for the disks array
after any number k of iterations of the packing loop, i.e. the free
space is never negative at any point during packing. -/
theorem fit_files_free_account (capacity : Int) (files : List file_info)
    (hf : ∀ f ∈ files, f.size ≤ capacity) :
    (∀ d ∈ fit_files capacity files,
      d.free = capacity - (d.files.map file_info.size).sum ∧ 0 ≤ d.free) ∧
    ∀ k : Nat, ∀ d ∈ ((sort_files files).take k).foldl (fit_step capacity) [],
      d.free = capacity - (d.files.map file_info.size).sum ∧ 0 ≤ d.free := by
  have hsortmem : ∀ g ∈ sort_files files, g.size ≤ capacity := by
    intro g hg
    exact hf g ((List.perm_insertionSort file_le files).mem_iff.mp hg)
  constructor
  · intro d hd
    simp only [fit_files] at hd
    have H := fit_loop_invariant capacity (sort_files files) [] []
      hsortmem (by simp) (by simp) (by simp) (by simp)
    exact ⟨H.2.1 d hd, H.2.2.1 d hd⟩
  · intro k d hd
    have htake : ∀ g ∈ (sort_files files).take k, g.size ≤ capacity :=
      fun g hg => hsortmem g (List.take_subset k _ hg)
    have H := fit_loop_invariant capacity ((sort_files files).take k) [] []
      htake (by simp) (by simp) (by simp) (by simp)
    exact ⟨H.2.1 d hd, H.2.2.1 d hd⟩

theorem fit_files_free_account_witness :
    (∀ d ∈ fit_files 10 [⟨"a", 4⟩, ⟨"b", 4⟩, ⟨"c", 4⟩, ⟨"d", 2⟩],
      d.free = 10 - (d.files.map file_info.size).sum ∧ 0 ≤ d.free) ∧
    ∀ k : Nat, ∀ d ∈ ((sort_files [⟨"a", 4⟩, ⟨"b", 4⟩, ⟨"c", 4⟩,
        ⟨"d", 2⟩]).take k).foldl (fit_step 10) [],
      d.free = 10 - (d.files.map file_info.size).sum ∧ 0 ≤ d.free :=
  fit_files_free_account 10 [⟨"a", 4⟩, ⟨"b", 4⟩, ⟨"c", 4⟩, ⟨"d", 2⟩]
    (by decide)

/-- Invariant for claim C9: processing files whose sizes only shrink
keeps every disk's file list ordered by non-increasing size. -/
lemma fit_loop_pairwise (capacity : Int) :
    ∀ (fs : List file_info) (ds : List disk),
      fs.Pairwise fit_le →
      (∀ d ∈ ds, d.files.Pairwise fit_le) →
      (∀ d ∈ ds, ∀ g ∈ d.files, ∀ x ∈ fs, x.size ≤ g.size) →
      ∀ d ∈ fs.foldl (fit_step capacity) ds, d.files.Pairwise fit_le := by
  intro fs
  induction fs with
  | nil =>
    intro ds _ hpw _
    simpa using hpw
  | cons f fs ih =>
    intro ds hsorted hpw hbd
    rw [List.foldl_cons]
    have hhead : ∀ x ∈ fs, x.size ≤ f.size :=
      fun x hx => (List.pairwise_cons.mp hsorted).1 x hx
    apply ih (fit_step capacity ds f) (List.Pairwise.of_cons hsorted)
    · intro d2 hd2
      rcases fit_step_mem capacity ds f d2 hd2 with hin | ⟨d, hd, hge, rfl⟩ | rfl
      · exact hpw d2 hin
      · simp only []
        rw [List.pairwise_append]
        refine ⟨hpw d hd, List.pairwise_singleton _ _, ?_⟩
        intro a ha b hb
        obtain rfl := List.mem_singleton.mp hb
        exact hbd d hd a ha b (List.mem_cons_self _ _)
      · simp only []
        exact List.pairwise_singleton _ _
    · intro d2 hd2 g hg x hx
      rcases fit_step_mem capacity ds f d2 hd2 with hin | ⟨d, hd, hge, rfl⟩ | rfl
      · exact hbd d2 hin g hg x (List.mem_cons_of_mem _ hx)
      · simp only [] at hg
        rcases List.mem_append.mp hg with hgd | hgf
        · exact hbd d hd g hgd x (List.mem_cons_of_mem _ hx)
        · obtain rfl := List.mem_singleton.mp hgf
          exact hhead x hx
      · simp only [] at hg
        obtain rfl := List.mem_singleton.mp hg
        exact hhead x hx

/-- C9, counterexample to the original claim: packing a 0-byte file and
a 3 GiB file (size 3221225472) at capacity 3221225472.  The truncating
comparator consistently orders the 0-byte file first (it returns -2^30
and +2^30 in the two query directions), so the single produced disk
lists its files in strictly increasing size order. -/
theorem fit_files_disk_not_desc_counterexample :
    ¬ ∀ d ∈ fit_files (3221225472 : Int)
        [(⟨"x", 0⟩ : file_info), ⟨"y", 3221225472⟩],
      List.Chain' (fun a b => b.size ≤ a.size) d.files := by
  intro h
  have hd := h ⟨[⟨"x", 0⟩, ⟨"y", 3221225472⟩], 0, 1⟩ (by decide)
  rw [List.chain'_cons] at hd
  exact absurd hd.1 (by decide)

/-- C9, amended: on every file collection whose sizes are below 2^31
bytes — where the comparator's 32-bit truncation is exact — every disk
produced by fit_files lists its files by non-increasing size: for
consecutive files the earlier one's size is at least the later
one's. -/
theorem fit_files_disk_files_desc (capacity : Int) (files : List file_info)
    (hb : ∀ f ∈ files, 0 ≤ f.size ∧ f.size < 2147483648) :
    ∀ d ∈ fit_files capacity files,
      List.Chain' (fun a b => b.size ≤ a.size) d.files := by
  intro d hd
  simp only [fit_files] at hd
  rw [sort_files_eq_spec_sort files hb] at hd
  have hpw := fit_loop_pairwise capacity (spec_sort files) []
    (List.sorted_insertionSort fit_le files) (by simp) (by simp) d hd
  exact List.Pairwise.chain' hpw

theorem fit_files_disk_files_desc_witness :
    List.Chain' (fun a b => b.size ≤ a.size)
      (disk.files ⟨[⟨"a", 4⟩, ⟨"b", 4⟩, ⟨"d", 2⟩], 0, 1⟩) :=
  fit_files_disk_files_desc 10 [⟨"a", 4⟩, ⟨"b", 4⟩, ⟨"c", 4⟩, ⟨"d", 2⟩]
    (by decide) ⟨[⟨"a", 4⟩, ⟨"b", 4⟩, ⟨"d", 2⟩], 0, 1⟩ (by decide)

/-- C4: packing is deterministic: the same file collection (same sizes
in the same order) packed twice with the same capacity yields the same
number of disks, the same files on each disk in the same order, and the
same disk ids. -/
theorem fit_files_deterministic (c1 c2 : Int) (files1 files2 : List file_info)
    (hc : c1 = c2) (hfs : files1 = files2) :
    (fit_files c1 files1).length = (fit_files c2 files2).length ∧
      (fit_files c1 files1).map disk.files =
        (fit_files c2 files2).map disk.files ∧
      (fit_files c1 files1).map disk.id = (fit_files c2 files2).map disk.id := by
  subst hc
  subst hfs
  exact ⟨rfl, rfl, rfl⟩

theorem fit_files_deterministic_witness :
    (fit_files 10 [⟨"a", 4⟩, ⟨"b", 4⟩, ⟨"c", 4⟩, ⟨"d", 2⟩]).length =
        (fit_files 10 [⟨"a", 4⟩, ⟨"b", 4⟩, ⟨"c", 4⟩, ⟨"d", 2⟩]).length ∧
      (fit_files 10 [⟨"a", 4⟩, ⟨"b", 4⟩, ⟨"c", 4⟩, ⟨"d", 2⟩]).map disk.files =
        (fit_files 10 [⟨"a", 4⟩, ⟨"b", 4⟩, ⟨"c", 4⟩, ⟨"d", 2⟩]).map
          disk.files ∧
      (fit_files 10 [⟨"a", 4⟩, ⟨"b", 4⟩, ⟨"c", 4⟩, ⟨"d", 2⟩]).map disk.id =
        (fit_files 10 [⟨"a", 4⟩, ⟨"b", 4⟩, ⟨"c", 4⟩, ⟨"d", 2⟩]).map disk.id :=
  fit_files_deterministic 10 10 [⟨"a", 4⟩, ⟨"b", 4⟩, ⟨"c", 4⟩, ⟨"d", 2⟩]
    [⟨"a", 4⟩, ⟨"b", 4⟩, ⟨"c", 4⟩, ⟨"d", 2⟩] rfl rfl

/-
Parsing lemmas for claim C5.
-/

lemma digit_char_facts {d : Nat} (hd : d < 10) :
    (digit_char d).isDigit = true ∧ c_isspace (digit_char d) = false ∧
      digit_char d ≠ '-' ∧ digit_char d ≠ '+' ∧
      digit_val (digit_char d) = (d : Int) := by
  interval_cases d <;> decide

lemma digit_not_space {c : Char} (h : c.isDigit = true) : c_isspace c = false := by
  cases hsp : c_isspace c with
  | false => rfl
  | true =>
    exfalso
    rcases of_decide_eq_true hsp with h1 | h1 | h1 | h1 | h1 | h1 <;>
      (subst h1; exact absurd h (by decide))

lemma digit_ne_minus {c : Char} (h : c.isDigit = true) : c ≠ '-' := by
  intro e; subst e; exact absurd h (by decide)

lemma digit_ne_plus {c : Char} (h : c.isDigit = true) : c ≠ '+' := by
  intro e; subst e; exact absurd h (by decide)

lemma takeWhile_append_all {p : Char → Bool} :
    ∀ (l1 l2 : List Char), (∀ c ∈ l1, p c = true) →
      (l1 ++ l2).takeWhile p = l1 ++ l2.takeWhile p := by
  intro l1
  induction l1 with
  | nil => intro l2 _; rfl
  | cons c cs ih =>
    intro l2 h
    rw [List.cons_append, List.takeWhile_cons, if_pos (h c (List.mem_cons_self _ _)),
      ih l2 (fun x hx => h x (List.mem_cons_of_mem _ hx)), List.cons_append]

lemma takeWhile_all {p : Char → Bool} :
    ∀ (l : List Char), (∀ c ∈ l, p c = true) → l.takeWhile p = l := by
  intro l h
  have := takeWhile_append_all l [] h
  simpa using this

lemma foldl_digit_val (L : List Nat) (hL : ∀ d ∈ L, d < 10) (a : Int) :
    ((L.reverse.map digit_char).foldl (fun x c => x * 10 + digit_val c) a)
      = a * 10 ^ L.length + ((Nat.ofDigits 10 L : Nat) : Int) := by
  induction L generalizing a with
  | nil => simp [Nat.ofDigits_nil]
  | cons d L ih =>
    have hd : d < 10 := hL d (List.mem_cons_self _ _)
    rw [List.reverse_cons, List.map_append, List.foldl_append,
      ih (fun x hx => hL x (List.mem_cons_of_mem _ hx)) a]
    simp only [List.map_cons, List.map_nil, List.foldl_cons, List.foldl_nil,
      (digit_char_facts hd).2.2.2.2, List.length_cons]
    rw [Nat.ofDigits_cons]
    push_cast
    ring

lemma nat_chars_all_digit {m : Nat} : ∀ c ∈ nat_chars m, c.isDigit = true := by
  intro c hc
  obtain ⟨d, hd, rfl⟩ := List.mem_map.mp hc
  exact (digit_char_facts (Nat.digits_lt_base (by norm_num)
    (List.mem_reverse.mp hd))).1

lemma nat_chars_ne_nil {m : Nat} (hm : m ≠ 0) : nat_chars m ≠ [] := by
  intro h
  apply Nat.digits_ne_nil_iff_ne_zero.mpr hm
  have := congrArg List.length h
  simp only [nat_chars, List.length_map, List.length_reverse, List.length_nil] at this
  exact List.length_eq_zero.mp this

lemma nat_chars_val (m : Nat) :
    ((nat_chars m).foldl (fun x c => x * 10 + digit_val c) 0) = (m : Int) := by
  rw [nat_chars, foldl_digit_val (Nat.digits 10 m)
    (fun d hd => Nat.digits_lt_base (by norm_num) hd) 0]
  rw [Nat.ofDigits_digits]
  ring

lemma ne_append_left {l r : List Char} (hl : l ≠ []) : r ≠ l ++ r := by
  intro heq
  have := congrArg List.length heq
  rw [List.length_append] at this
  have hlen : l.length = 0 := by omega
  exact hl (List.length_eq_zero.mp hlen)

/-- Behaviour of the strtol model on a rendered number followed by a
remainder that does not start with a digit: the number parses and the
endptr lands on the remainder. -/
lemma strtol10_nat_chars (m : Nat) (hm : m ≠ 0) (rest : List Char)
    (hrest : ∀ c, rest.head? = some c → c.isDigit = false) :
    strtol10 (nat_chars m ++ rest) = ((m : Int), rest) := by
  obtain ⟨c, cs, hcons⟩ := List.exists_cons_of_ne_nil (nat_chars_ne_nil hm)
  have hcd : c.isDigit = true :=
    nat_chars_all_digit c (by rw [hcons]; exact List.mem_cons_self _ _)
  have h1 : (nat_chars m ++ rest).dropWhile c_isspace = nat_chars m ++ rest := by
    rw [hcons, List.cons_append, List.dropWhile_cons,
      if_neg (by rw [digit_not_space hcd]; simp)]
  have h2 : (nat_chars m ++ rest).head? = some c := by
    rw [hcons]; rfl
  have h3 : (nat_chars m ++ rest).takeWhile Char.isDigit = nat_chars m := by
    rw [takeWhile_append_all _ _ nat_chars_all_digit]
    cases rest with
    | nil => simp
    | cons r rs =>
      rw [List.takeWhile_cons, if_neg (by rw [hrest r rfl]; simp)]
      simp
  have h4 : (nat_chars m ++ rest).drop (nat_chars m).length = rest :=
    List.drop_left _ _
  simp only [strtol10, h1, h2]
  have hm1 : decide (some c = some '-') = false := by
    apply decide_eq_false; simp [digit_ne_minus hcd]
  have hm2 : decide (some c = some '+') = false := by
    apply decide_eq_false; simp [digit_ne_plus hcd]
  have h5 : (nat_chars m).isEmpty = false := by
    cases hq : nat_chars m with
    | nil => exact absurd hq (nat_chars_ne_nil hm)
    | cons a l => rfl
  rw [hm1, hm2]
  simp only [Bool.or_false, Bool.false_eq_true, if_false, h3, h5, nat_chars_val, h4]

/-- Behaviour of the strtol model on a minus sign followed by a rendered
number: the negated number parses and the whole string is consumed. -/
lemma strtol10_neg_nat_chars (m : Nat) (hm : m ≠ 0) :
    strtol10 ('-' :: nat_chars m) = (-(m : Int), []) := by
  have h1 : ('-' :: nat_chars m).dropWhile c_isspace = '-' :: nat_chars m := by
    rw [List.dropWhile_cons, if_neg (by decide)]
  have h3 : (nat_chars m).takeWhile Char.isDigit = nat_chars m :=
    takeWhile_all _ nat_chars_all_digit
  have h5 : (nat_chars m).isEmpty = false := by
    cases hq : nat_chars m with
    | nil => exact absurd hq (nat_chars_ne_nil hm)
    | cons a l => rfl
  simp only [strtol10, h1, List.head?_cons, List.tail_cons, decide_True,
    Bool.true_or, if_true, h3, h5, nat_chars_val, List.drop_length]
  simp

lemma string_to_number_nounit (s : String) (n : Int)
    (h : strtol10 s.data = (n, [])) (hne : s.data ≠ []) :
    string_to_number s = .ok n := by
  simp only [string_to_number, h]
  rw [if_neg (fun heq => hne heq.symm)]

lemma string_to_number_unit (s : String) (n : Int) (u : Char)
    (h : strtol10 s.data = (n, [u])) (hne : [u] ≠ s.data) :
    string_to_number s =
      match c_tolower u with
      | 't' => .ok (n * TB)
      | 'g' => .ok (n * GB)
      | 'm' => .ok (n * MB)
      | 'k' => .ok (n * KB)
      | 'b' => .ok n
      | _ => .error ("unknown unit: \x27" ++ String.mk [u] ++ "\x27") := by
  simp only [string_to_number, h]
  rw [if_neg hne]

lemma string_to_number_longunit (s : String) (n : Int) (c1 c2 : Char)
    (cs : List Char) (h : strtol10 s.data = (n, c1 :: c2 :: cs))
    (hne : c1 :: c2 :: cs ≠ s.data) :
    string_to_number s =
      .error ("unknown unit: \x27" ++ String.mk (c1 :: c2 :: cs) ++ "\x27") := by
  simp only [string_to_number, h]
  rw [if_neg hne]

lemma string_to_number_unit_concrete (m : Nat) (hm : m ≠ 0) (u : Char)
    (hdig : u.isDigit = false) :
    string_to_number (String.mk (nat_chars m ++ [u])) =
      match c_tolower u with
      | 't' => .ok ((m : Int) * TB)
      | 'g' => .ok ((m : Int) * GB)
      | 'm' => .ok ((m : Int) * MB)
      | 'k' => .ok ((m : Int) * KB)
      | 'b' => .ok (m : Int)
      | _ => .error ("unknown unit: \x27" ++ String.mk [u] ++ "\x27") := by
  apply string_to_number_unit
  · exact strtol10_nat_chars m hm [u] (fun c hc => by cases hc; exact hdig)
  · exact ne_append_left (nat_chars_ne_nil hm)

/-- C5, amended: the size parser maps a number with an optional
single-letter case-insensitive unit b, k, m, g, t to the number times 1,
1000, 1000^2, 1000^3, 1000^4; a string with no unit yields the raw byte
count; any other trailing content — including a decimal point and
fraction — is rejected as an unknown-unit parse error; a negative or
zero magnitude reaches the capacity check of main and is rejected as
"disk size is too small.". -/
theorem string_to_number_spec :
    (∀ m : Nat, m ≠ 0 →
      string_to_number (String.mk (nat_chars m)) = .ok (m : Int) ∧
      parse_capacity (String.mk (nat_chars m)) = .ok (m : Int)) ∧
    (∀ m : Nat, m ≠ 0 → ∀ u mult, (u, mult) ∈ unit_table →
      string_to_number (String.mk (nat_chars m ++ [u])) = .ok ((m : Int) * mult)) ∧
    (∀ m : Nat, m ≠ 0 → ∀ rest, rest ≠ [] →
      (∀ c, rest.head? = some c → c.isDigit = false) →
      (∀ u, rest = [u] → c_tolower u ∉ (['t', 'g', 'm', 'k', 'b'] : List Char)) →
      string_to_number (String.mk (nat_chars m ++ rest)) =
        .error ("unknown unit: \x27" ++ String.mk rest ++ "\x27")) ∧
    (∀ m : Nat, m ≠ 0 → ∀ frac,
      string_to_number (String.mk (nat_chars m ++ '.' :: frac)) =
        .error ("unknown unit: \x27" ++ String.mk ('.' :: frac) ++ "\x27")) ∧
    (∀ m : Nat, m ≠ 0 →
      parse_capacity (String.mk ('-' :: nat_chars m)) =
        .error "disk size is too small.") ∧
    parse_capacity "0" = .error "disk size is too small." := by
  have hsd : ∀ l : List Char, (String.mk l).data = l := fun l => rfl
  have hnounit : ∀ m : Nat, m ≠ 0 →
      string_to_number (String.mk (nat_chars m)) = .ok (m : Int) := by
    intro m hm
    apply string_to_number_nounit
    · rw [hsd]
      exact (by simpa using strtol10_nat_chars m hm [] (by simp))
    · rw [hsd]; exact nat_chars_ne_nil hm
  have hbad : ∀ m : Nat, m ≠ 0 → ∀ rest, rest ≠ [] →
      (∀ c, rest.head? = some c → c.isDigit = false) →
      (∀ u, rest = [u] → c_tolower u ∉ (['t', 'g', 'm', 'k', 'b'] : List Char)) →
      string_to_number (String.mk (nat_chars m ++ rest)) =
        .error ("unknown unit: \x27" ++ String.mk rest ++ "\x27") := by
    intro m hm rest hrne hrdig hno
    cases rest with
    | nil => exact absurd rfl hrne
    | cons u us =>
      cases us with
      | nil =>
        rw [string_to_number_unit_concrete m hm u (hrdig u rfl)]
        have hu := hno u rfl
        split
        · exact absurd (by simp [*]) hu
        · exact absurd (by simp [*]) hu
        · exact absurd (by simp [*]) hu
        · exact absurd (by simp [*]) hu
        · exact absurd (by simp [*]) hu
        · rfl
      | cons v vs =>
        exact string_to_number_longunit _ (m : Int) u v vs
          (by rw [hsd]; exact strtol10_nat_chars m hm (u :: v :: vs) hrdig)
          (by rw [hsd]; exact ne_append_left (nat_chars_ne_nil hm))
  refine ⟨?_, ?_, hbad, ?_, ?_, by decide⟩
  · intro m hm
    refine ⟨hnounit m hm, ?_⟩
    rw [parse_capacity, hnounit m hm]
    simp only []
    rw [if_neg (by omega)]
  · intro m hm u mult hu
    simp only [unit_table, List.mem_cons, List.mem_singleton, Prod.mk.injEq,
      List.not_mem_nil, or_false] at hu
    rcases hu with h | h | h | h | h | h | h | h | h | h <;>
      obtain ⟨rfl, rfl⟩ := h <;>
      rw [string_to_number_unit_concrete m hm _ (by decide)] <;>
      simp [c_tolower]
  · intro m hm frac
    apply hbad m hm ('.' :: frac) (by simp)
    · intro c hc
      cases hc
      decide
    · intro u hu
      have he : u = '.' := by
        have := congrArg List.head? hu
        simpa using this.symm
      subst he
      decide
  · intro m hm
    rw [parse_capacity]
    rw [string_to_number_nounit _ (-(m : Int))
      (by rw [hsd]; exact strtol10_neg_nat_chars m hm) (by rw [hsd]; simp)]
    simp only []
    rw [if_pos (by omega)]

theorem string_to_number_spec_witness :
    string_to_number (String.mk (nat_chars 5 ++ ['k'])) = .ok ((5 : Int) * KB) ∧
      parse_capacity (String.mk ('-' :: nat_chars 5)) =
        .error "disk size is too small." :=
  ⟨string_to_number_spec.2.1 5 (by decide) 'k' KB (by decide),
   string_to_number_spec.2.2.2.2.1 5 (by decide)⟩

/-- C5, counterexample to the original claim: the decimal capacity
string "1.5" is rejected by string_to_number as the unknown-unit parse
error, not by the capacity check with the "too small" error. -/
theorem parse_capacity_decimal_counterexample :
    parse_capacity "1.5" = .error "unknown unit: \x27.5\x27" ∧
      parse_capacity "1.5" ≠ .error "disk size is too small." := by
  constructor
  · decide
  · decide

/-
Lemmas for claim C8 (cleanpath).
-/

lemma squeeze_spec_cons_slash :
    ∀ l, squeeze_spec ('/' :: l) = '/' :: squeeze_spec (l.dropWhile (fun x => x = '/')) := by
  intro l
  induction l with
  | nil => simp [squeeze_spec]
  | cons c rest ih =>
    by_cases hc : c = '/'
    · subst hc
      rw [show squeeze_spec ('/' :: '/' :: rest) = squeeze_spec ('/' :: rest) by
        simp [squeeze_spec]]
      rw [ih]
      simp [List.dropWhile_cons]
    · rw [show squeeze_spec ('/' :: c :: rest) = '/' :: squeeze_spec (c :: rest) by
        simp [squeeze_spec, hc]]
      simp [List.dropWhile_cons, hc]

lemma squeeze_spec_cons_ne {c : Char} (hc : ¬ c = '/') :
    ∀ l, squeeze_spec (c :: l) = c :: squeeze_spec l := by
  intro l
  cases l with
  | nil => simp [squeeze_spec]
  | cons c2 rest => simp [squeeze_spec, hc]

lemma cleanpath_chars_eq_squeeze : ∀ l, cleanpath_chars l = squeeze_spec l := by
  have key : ∀ n l, List.length l ≤ n → cleanpath_chars l = squeeze_spec l := by
    intro n
    induction n with
    | zero =>
      intro l hl
      have : l = [] := List.length_eq_zero.mp (Nat.le_zero.mp hl)
      subst this
      simp [cleanpath_chars, squeeze_spec]
    | succ n ih =>
      intro l hl
      cases l with
      | nil => simp [cleanpath_chars, squeeze_spec]
      | cons c rest =>
        by_cases hc : c = '/'
        · subst hc
          rw [show cleanpath_chars ('/' :: rest) =
              '/' :: cleanpath_chars (rest.dropWhile (fun x => x = '/')) by
            simp [cleanpath_chars]]
          rw [squeeze_spec_cons_slash]
          have hlen : (rest.dropWhile (fun x => x = '/')).length ≤ n := by
            have h1 := (List.dropWhile_sublist (l := rest)
              (fun x => decide (x = '/'))).length_le
            simp only [List.length_cons] at hl
            omega
          rw [ih _ hlen]
        · rw [show cleanpath_chars (c :: rest) = c :: cleanpath_chars rest by
            simp [cleanpath_chars, hc]]
          rw [squeeze_spec_cons_ne hc]
          simp only [List.length_cons] at hl
          rw [ih rest (by omega)]
  intro l
  exact key l.length l le_rfl

lemma squeeze_spec_head : ∀ (c : Char) (l : List Char),
    ∃ t, squeeze_spec (c :: l) = c :: t := by
  have key : ∀ n (c : Char) (l : List Char), l.length ≤ n →
      ∃ t, squeeze_spec (c :: l) = c :: t := by
    intro n
    induction n with
    | zero =>
      intro c l hl
      have : l = [] := List.length_eq_zero.mp (Nat.le_zero.mp hl)
      subst this
      exact ⟨[], by simp [squeeze_spec]⟩
    | succ n ih =>
      intro c l hl
      cases l with
      | nil => exact ⟨[], by simp [squeeze_spec]⟩
      | cons c2 rest =>
        by_cases h : c = '/' ∧ c2 = '/'
        · obtain ⟨rfl, rfl⟩ := h
          simp only [List.length_cons] at hl
          obtain ⟨t, ht⟩ := ih '/' rest (by omega)
          exact ⟨t, by rw [show squeeze_spec ('/' :: '/' :: rest) =
            squeeze_spec ('/' :: rest) by simp [squeeze_spec]]; exact ht⟩
        · exact ⟨squeeze_spec (c2 :: rest), by simp [squeeze_spec, h]⟩
  intro c l
  exact key l.length c l le_rfl

lemma squeeze_spec_chain : ∀ l, List.Chain'
    (fun a b => ¬(a = '/' ∧ b = '/')) (squeeze_spec l) := by
  have key : ∀ n l, List.length l ≤ n → List.Chain'
      (fun a b => ¬(a = '/' ∧ b = '/')) (squeeze_spec l) := by
    intro n
    induction n with
    | zero =>
      intro l hl
      have : l = [] := List.length_eq_zero.mp (Nat.le_zero.mp hl)
      subst this
      simp [squeeze_spec]
    | succ n ih =>
      intro l hl
      cases l with
      | nil => simp [squeeze_spec]
      | cons c rest =>
        cases rest with
        | nil => simp [squeeze_spec]
        | cons c2 rest2 =>
          simp only [List.length_cons] at hl
          by_cases h : c = '/' ∧ c2 = '/'
          · obtain ⟨rfl, rfl⟩ := h
            rw [show squeeze_spec ('/' :: '/' :: rest2) =
              squeeze_spec ('/' :: rest2) by simp [squeeze_spec]]
            exact ih _ (by simp; omega)
          · rw [show squeeze_spec (c :: c2 :: rest2) =
              c :: squeeze_spec (c2 :: rest2) by simp [squeeze_spec, h]]
            obtain ⟨t, ht⟩ := squeeze_spec_head c2 rest2
            rw [ht]
            rw [List.chain'_cons]
            constructor
            · exact h
            · rw [← ht]
              exact ih _ (by simp; omega)
  intro l
  exact key l.length l le_rfl

/-- C8: for every input path string, cleanpath collapses every run of
consecutive separators to one separator and strips one trailing
separator unless the result would be empty or the root separator alone;
it is a pure string transform (a function of the path string only, no
filesystem access in the embedding). -/
theorem cleanpath_eq_normalize (path : String) :
    cleanpath path = normalize_spec path := by
  unfold cleanpath normalize_spec
  rw [cleanpath_chars_eq_squeeze]
  have hchain := squeeze_spec_chain path.data
  rcases hq : squeeze_spec path.data with _ | ⟨c, cs⟩
  · simp
  · rw [hq] at hchain
    have hcond : (1 < (c :: cs).length ∧ (c :: cs).getLast? = some '/') ↔
        ((c :: cs).getLast? = some '/' ∧ String.mk (c :: cs).dropLast ≠ "" ∧
          String.mk (c :: cs).dropLast ≠ "/") := by
      constructor
      · rintro ⟨hlen, hlast⟩
        refine ⟨hlast, ?_, ?_⟩
        · intro he
          have hd0 : (c :: cs).dropLast = [] := by
            have := congrArg String.data he
            simpa using this
          have hl2 := congrArg List.length hd0
          rw [List.length_dropLast] at hl2
          simp only [List.length_nil] at hl2
          omega
        · intro he
          have hdl : (c :: cs).dropLast = ['/'] := by
            have := congrArg String.data he
            simpa using this
          have hne : (c :: cs) ≠ [] := by simp
          have hfull := List.dropLast_append_getLast hne
          have hlasteq : (c :: cs).getLast hne = '/' := by
            have h2 : (c :: cs).getLast? = some ((c :: cs).getLast hne) :=
              List.getLast?_eq_getLast _ hne
            rw [hlast] at h2
            exact (Option.some.inj h2).symm
          rw [hdl, hlasteq] at hfull
          rw [← hfull] at hchain
          simp [List.chain'_cons] at hchain
      · rintro ⟨hlast, hne1, _⟩
        refine ⟨?_, hlast⟩
        have hd0 : (c :: cs).dropLast ≠ [] := by
          intro he
          exact hne1 (by rw [he])
        have hl2 := List.length_pos.mpr hd0
        rw [List.length_dropLast] at hl2
        omega
    simp only [hcond]

/-
Lemmas and claims about the collector and the main pipeline (C6, C7,
C10).
-/

lemma collect_files_oversize (capacity : Int) (recursive : Bool) :
    ∀ (entries : List fs_entry) (path : String) (acc : List file_info),
      (∃ n s, fs_entry.file n s ∈ entries ∧ capacity < s) →
      ∃ err, collect_files capacity recursive path entries acc = .error err := by
  intro entries
  induction entries with
  | nil =>
    intro path acc h
    obtain ⟨n, s, hmem, _⟩ := h
    exact absurd hmem (List.not_mem_nil _)
  | cons e rest ih =>
    intro path acc h
    obtain ⟨n, s, hmem, hs⟩ := h
    cases e with
    | file name size =>
      by_cases hbig : size > capacity
      · exact ⟨.fileTooLarge (path ++ "/" ++ name) size,
          by rw [collect_files, if_pos hbig]⟩
      · have hrest : fs_entry.file n s ∈ rest := by
          rcases List.mem_cons.mp hmem with heq | hr
          · injection heq with h1 h2
            subst h2
            omega
          · exact hr
        obtain ⟨err, herr⟩ := ih path (acc ++ [⟨path ++ "/" ++ name, size⟩])
          ⟨n, s, hrest, hs⟩
        exact ⟨err, by rw [collect_files, if_neg hbig]; exact herr⟩
    | dir name entries2 =>
      have hrest : fs_entry.file n s ∈ rest := by
        rcases List.mem_cons.mp hmem with heq | hr
        · exact absurd heq (by simp)
        · exact hr
      cases recursive with
      | false =>
        obtain ⟨err, herr⟩ := ih path acc ⟨n, s, hrest, hs⟩
        exact ⟨err, by rw [collect_files]; simpa using herr⟩
      | true =>
        cases hinner : collect_files capacity true (path ++ "/" ++ name)
            entries2 acc with
        | error err =>
          refine ⟨err, ?_⟩
          rw [collect_files]
          simp [hinner]
        | ok files2 =>
          obtain ⟨err, herr⟩ := ih path files2 ⟨n, s, hrest, hs⟩
          refine ⟨err, ?_⟩
          rw [collect_files]
          simp [hinner, herr]
    | other name =>
      exact ⟨.notRegular (path ++ "/" ++ name), by rw [collect_files]⟩

lemma collect_files_oversize_named (capacity : Int) (recursive : Bool) :
    ∀ (entries : List fs_entry) (path : String) (acc : List file_info),
      (∀ e ∈ entries, ∃ n s, e = fs_entry.file n s) →
      (∃ n s, fs_entry.file n s ∈ entries ∧ capacity < s) →
      ∃ p s2, collect_files capacity recursive path entries acc =
        .error (.fileTooLarge p s2) ∧ capacity < s2 := by
  intro entries
  induction entries with
  | nil =>
    intro path acc _ h
    obtain ⟨n, s, hmem, _⟩ := h
    exact absurd hmem (List.not_mem_nil _)
  | cons e rest ih =>
    intro path acc hall h
    obtain ⟨n, s, hmem, hs⟩ := h
    obtain ⟨name, size, rfl⟩ := hall e (List.mem_cons_self _ _)
    by_cases hbig : size > capacity
    · exact ⟨path ++ "/" ++ name, size,
        by rw [collect_files, if_pos hbig], hbig⟩
    · have hrest : fs_entry.file n s ∈ rest := by
        rcases List.mem_cons.mp hmem with heq | hr
        · injection heq with h1 h2
          subst h2
          omega
        · exact hr
      obtain ⟨p, s2, herr, hs2⟩ := ih path (acc ++ [⟨path ++ "/" ++ name, size⟩])
        (fun x hx => hall x (List.mem_cons_of_mem _ hx)) ⟨n, s, hrest, hs⟩
      exact ⟨p, s2, by rw [collect_files, if_neg hbig]; exact herr, hs2⟩

/-- C6: a regular file strictly larger than the capacity makes the whole
collection fail fatally: among arbitrary entries collection returns some
error, and among regular files it returns the FileTooLarge error
carrying a path and an over-capacity size; while a single file of size
exactly the capacity is collected and packs onto exactly one disk with
zero remaining capacity. -/
theorem collect_too_large_boundary (capacity : Int) :
    (∀ (recursive : Bool) (path : String) (entries : List fs_entry)
        (acc : List file_info),
      (∃ n s, fs_entry.file n s ∈ entries ∧ capacity < s) →
      ∃ err, collect_files capacity recursive path entries acc = .error err) ∧
    (∀ (recursive : Bool) (path : String) (entries : List fs_entry)
        (acc : List file_info),
      (∀ e ∈ entries, ∃ n s, e = fs_entry.file n s) →
      (∃ n s, fs_entry.file n s ∈ entries ∧ capacity < s) →
      ∃ p s2, collect_files capacity recursive path entries acc =
        .error (.fileTooLarge p s2) ∧ capacity < s2) ∧
    (∀ path name : String, 0 < capacity →
      collect_files capacity false path [fs_entry.file name capacity] [] =
        .ok [⟨path ++ "/" ++ name, capacity⟩] ∧
      fit_files capacity [⟨path ++ "/" ++ name, capacity⟩] =
        [⟨[⟨path ++ "/" ++ name, capacity⟩], 0, 1⟩]) := by
  refine ⟨fun r p es acc h => collect_files_oversize capacity r es p acc h,
    fun r p es acc hall h =>
      collect_files_oversize_named capacity r es p acc hall h,
    ?_⟩
  intro path name _
  constructor
  · rw [collect_files, if_neg (by omega), collect_files]
    simp
  · rw [fit_files]
    rw [show sort_files [⟨path ++ "/" ++ name, capacity⟩] =
      [(⟨path ++ "/" ++ name, capacity⟩ : file_info)] from rfl]
    rw [List.foldl_cons, List.foldl_nil]
    simp only [fit_step, add_to_first_fit, disk_new]
    simp

theorem collect_too_large_boundary_witness :
    (∃ err, collect_files 10 false "r" [fs_entry.file "x" 11] [] = .error err) ∧
      (∃ p s2, collect_files 10 false "r" [fs_entry.file "x" 11] [] =
        .error (.fileTooLarge p s2) ∧ (10 : Int) < s2) ∧
      (collect_files 10 false "r" [fs_entry.file "x" 10] [] =
        .ok [⟨"r/x", 10⟩] ∧
      fit_files 10 [⟨"r/x", 10⟩] = [⟨[⟨"r/x", 10⟩], 0, 1⟩]) :=
  ⟨(collect_too_large_boundary 10).1 false "r" [fs_entry.file "x" 11] []
      ⟨"x", 11, by simp, by norm_num⟩,
   (collect_too_large_boundary 10).2.1 false "r" [fs_entry.file "x" 11] []
      (by intro e he; rw [List.mem_singleton.mp he]; exact ⟨"x", 11, rfl⟩)
      ⟨"x", 11, by simp, by norm_num⟩,
   (collect_too_large_boundary 10).2.2 "r" "x" (by norm_num)⟩

lemma fit_loop_ids (capacity : Int) :
    ∀ (fs : List file_info) (ds : List disk),
      ds.map disk.id = List.range' 1 ds.length →
      (fs.foldl (fit_step capacity) ds).map disk.id =
        List.range' 1 (fs.foldl (fit_step capacity) ds).length := by
  intro fs
  induction fs with
  | nil => intro ds hids; simpa using hids
  | cons f fs ih =>
    intro ds hids
    rw [List.foldl_cons]
    apply ih
    rcases fit_step_ids capacity ds f with h | h
    · have hl : (fit_step capacity ds f).length = ds.length := by
        have := congrArg List.length h
        simpa using this
      rw [h, hl, hids]
    · have hl : (fit_step capacity ds f).length = ds.length + 1 := by
        have := congrArg List.length h
        simpa using this
      rw [h, hl, hids, List.range'_concat]
      have : 1 + 1 * ds.length = ds.length + 1 := by omega
      rw [this]

/-- C7: when a packing run produces more than 9999 disks, the
disk-count guard of main rejects the layout before any materialization,
the id guard of disk_link rejects every disk whose id exceeds 9999, and
such a disk actually occurs in the run. -/
theorem too_many_disks_fatal (capacity : Int) (files : List file_info)
    (hn : 9999 < (fit_files capacity files).length) :
    main_check_disks (fit_files capacity files) =
        .error (.tooManyDisks (fit_files capacity files).length) ∧
      (∀ d : disk, 9999 < d.id →
        disk_link_check d = .error "disk_link: disk_id too big for format.") ∧
      ∃ d ∈ fit_files capacity files, 9999 < d.id := by
  refine ⟨by rw [main_check_disks, if_pos hn], fun d hd => by
    rw [disk_link_check, if_pos hd], ?_⟩
  have hids : (fit_files capacity files).map disk.id =
      List.range' 1 (fit_files capacity files).length := by
    simp only [fit_files]
    exact fit_loop_ids capacity (sort_files files) [] (by simp)
  have hmem : 10000 ∈ (fit_files capacity files).map disk.id := by
    rw [hids]
    exact List.mem_range'_1.mpr ⟨by omega, by omega⟩
  obtain ⟨d, hd, hid⟩ := List.mem_map.mp hmem
  exact ⟨d, hd, by omega⟩

lemma add_to_first_fit_none_of_free_zero (f : file_info) (hf : 0 < f.size) :
    ∀ ds : List disk, (∀ d ∈ ds, d.free = 0) →
      add_to_first_fit f ds = none := by
  intro ds
  induction ds with
  | nil => intro _; rfl
  | cons d rest ih =>
    intro h
    rw [add_to_first_fit,
      if_neg (by have := h d (List.mem_cons_self _ _); omega),
      ih (fun x hx => h x (List.mem_cons_of_mem _ hx))]
    rfl

lemma unit_disks_succ (k : Nat) :
    unit_disks (k + 1) =
      unit_disks k ++ [{ files := [⟨"big", 1⟩], free := 0, id := k + 1 }] := by
  rw [unit_disks, List.range'_concat, List.map_append, unit_disks]
  have : 1 + 1 * k = k + 1 := by omega
  rw [this]
  rfl

lemma fit_step_unit (k : Nat) :
    fit_step 1 (unit_disks k) ⟨"big", 1⟩ = unit_disks (k + 1) := by
  have hnone := add_to_first_fit_none_of_free_zero ⟨"big", 1⟩ (by norm_num)
    (unit_disks k)
    (by
      intro d hd
      obtain ⟨i, _, rfl⟩ := List.mem_map.mp hd
      rfl)
  have hlen : (unit_disks k).length = k := by
    rw [unit_disks, List.length_map, List.length_range']
  simp only [fit_step, hnone, disk_new, hlen, unit_disks_succ,
    List.nil_append]
  rw [show (1 : Int) - 1 = 0 by norm_num]

lemma foldl_unit (n : Nat) : ∀ k : Nat,
    List.foldl (fit_step 1) (unit_disks k) (List.replicate n ⟨"big", 1⟩) =
      unit_disks (k + n) := by
  induction n with
  | zero => intro k; simp
  | succ n ih =>
    intro k
    rw [List.replicate_succ, List.foldl_cons, fit_step_unit, ih (k + 1)]
    congr 1
    omega

lemma sort_files_replicate (n : Nat) :
    sort_files (List.replicate n ⟨"big", 1⟩) =
      List.replicate n (⟨"big", 1⟩ : file_info) := by
  apply List.eq_replicate_iff.mpr
  constructor
  · rw [sort_files]
    exact (List.perm_insertionSort file_le _).length_eq.trans
      (List.length_replicate _ _)
  · intro b hb
    rw [sort_files] at hb
    exact List.eq_of_mem_replicate
      ((List.perm_insertionSort file_le _).mem_iff.mp hb)

lemma fit_files_unit :
    fit_files 1 (List.replicate 10000 ⟨"big", 1⟩) = unit_disks 10000 := by
  rw [fit_files, sort_files_replicate]
  have h := foldl_unit 10000 0
  rw [show unit_disks 0 = [] from rfl, Nat.zero_add] at h
  exact h

theorem too_many_disks_fatal_witness :
    main_check_disks (fit_files 1 (List.replicate 10000 ⟨"big", 1⟩)) =
        .error (.tooManyDisks
          (fit_files 1 (List.replicate 10000 ⟨"big", 1⟩)).length) ∧
      (∀ d : disk, 9999 < d.id →
        disk_link_check d = .error "disk_link: disk_id too big for format.") ∧
      ∃ d ∈ fit_files 1 (List.replicate 10000 ⟨"big", 1⟩), 9999 < d.id :=
  too_many_disks_fatal 1 (List.replicate 10000 ⟨"big", 1⟩)
    (by rw [fit_files_unit, unit_disks, List.length_map, List.length_range']
        omega)

/-- C10: when the traversal of all the given roots discovers zero
regular files, main fails fatally with the no-files error before any
packing, instead of reporting a zero-disk layout. -/
theorem no_files_fatal (capacity : Int) (recursive : Bool)
    (roots : List (String × List fs_entry))
    (hc : collect_roots capacity recursive roots [] = .ok []) :
    main_model capacity recursive roots = .error .noFiles := by
  rw [main_model, hc]
  rfl

theorem no_files_fatal_witness :
    main_model 10 false [("p", [])] = .error .noFiles :=
  no_files_fatal 10 false [("p", [])]
    (by rw [collect_roots, collect_files]; rfl)
